import Mathlib

/- Shallow embedding of the zuobiao image-processing core:
   circle detection and filtering (src/core/circle_detection.py),
   the edge-detection engine (src/core/edge_detection.py),
   circle region extraction (src/core/circle_capture.py), and the
   memory-bounded image pyramid cache (src/gui/image_canvas.py).

   Conventions: Python ints are modelled as Int (Nat where the source value
   is a size or count), Python floats as exact rationals; float literals of
   the source (0.7, 0.4, 0.8, ...) are taken at their decimal value.
   Fallible steps return Option. External OpenCV/PIL calls whose pixel-level
   output the claims do not depend on (Canny, mask rasterisation) are taken
   as function parameters of the embedding. -/

namespace Zuobiao

/-! ### Association lists, modelling Python dicts (insertion-ordered). -/

def alookup {κ β : Type} [DecidableEq κ] (k : κ) : List (κ × β) → Option β
  | [] => none
  | e :: t => if e.1 = k then some e.2 else alookup k t

def aerase {κ β : Type} [DecidableEq κ] (k : κ) : List (κ × β) → List (κ × β)
  | [] => []
  | e :: t => if e.1 = k then t else e :: aerase k t

def aset {κ β : Type} [DecidableEq κ] (k : κ) (v : β) : List (κ × β) → List (κ × β)
  | [] => [(k, v)]
  | e :: t => if e.1 = k then (k, v) :: t else e :: aset k v t

theorem alookup_append_left {κ β : Type} [DecidableEq κ] (k : κ) (b : β)
    (l l' : List (κ × β)) (h : alookup k l = some b) :
    alookup k (l ++ l') = some b := by
  induction l with
  | nil => simp [alookup] at h
  | cons e t ih =>
    simp only [alookup, List.cons_append] at h ⊢
    split at h
    · simp_all
    · simp only [*, if_false]
      exact ih h

theorem alookup_aerase_ne {κ β : Type} [DecidableEq κ] (k k' : κ) (hne : k' ≠ k)
    (l : List (κ × β)) : alookup k (aerase k' l) = alookup k l := by
  induction l with
  | nil => rfl
  | cons e t ih =>
    by_cases he : e.1 = k'
    · have : e.1 ≠ k := he ▸ hne
      simp [aerase, alookup, he, this, hne]
    · simp only [aerase, he, if_false, alookup]
      split
      · rfl
      · exact ih

theorem aerase_keys_sublist {κ β : Type} [DecidableEq κ] (k : κ) (l : List (κ × β)) :
    ((aerase k l).map Prod.fst).Sublist (l.map Prod.fst) := by
  induction l with
  | nil => simp [aerase]
  | cons e t ih =>
    by_cases he : e.1 = k
    · simp only [aerase, he, if_true, List.map_cons]
      exact (List.sublist_cons_self _ _)
    · simp only [aerase, he, if_false, List.map_cons]
      exact ih.cons₂ _

theorem alookup_aset_self {κ β : Type} [DecidableEq κ] (k : κ) (v : β)
    (l : List (κ × β)) : alookup k (aset k v l) = some v := by
  induction l with
  | nil => simp [aset, alookup]
  | cons e t ih =>
    simp only [aset]
    split
    · simp [alookup]
    · simpa [alookup, *] using ih

theorem countP_replicate_false {α : Type} (p : α → Bool) (a : α) (h : p a = false)
    (n : ℕ) : List.countP p (List.replicate n a) = 0 := by
  induction n with
  | zero => simp
  | succ n ih => simp [List.replicate_succ, List.countP_cons, h, ih]

theorem alookup_eq_none_iff {κ β : Type} [DecidableEq κ] (k : κ) (l : List (κ × β)) :
    alookup k l = none ↔ k ∉ l.map Prod.fst := by
  induction l with
  | nil => simp [alookup]
  | cons e t ih =>
    simp only [alookup, List.map_cons, List.mem_cons]
    by_cases he : e.1 = k
    · simp [he]
    · simp only [he, if_false, ih]
      constructor
      · intro hk h
        rcases h with h | h
        · exact he h.symm
        · exact hk h
      · intro h hk
        exact h (Or.inr hk)

/-! ### src/core/circle_detection.py -/

/-- The `Circle` dataclass: integer centre and radius, rational confidence,
`adjusted` flag, and the original detected geometry retained for audit. -/
structure Circle where
  x : ℤ
  y : ℤ
  radius : ℤ
  confidence : ℚ
  adjusted : Bool
  original_x : ℤ
  original_y : ℤ
  original_radius : ℤ
deriving DecidableEq

/-- Source `Circle.__init__` + `__post_init__` as the detector builds circles:
the original fields default to None and are back-filled from x/y/radius. -/
def mkCircle (x y radius : ℤ) (confidence : ℚ) : Circle :=
  { x := x, y := y, radius := radius, confidence := confidence,
    adjusted := false, original_x := x, original_y := y, original_radius := radius }

/-- The `DetectionParams` dataclass (HoughCircles parameters). -/
structure DetectionParams where
  dp : ℚ
  min_dist : ℤ
  param1 : ℤ
  param2 : ℤ
  min_radius : ℤ
  max_radius : ℤ
  blur_kernel_size : ℤ
  median_blur_size : ℤ
  use_clahe : Bool
  clahe_clip_limit : ℚ
  clahe_tile_grid_size : ℤ × ℤ
deriving DecidableEq

/-- The `DetectionParams()` defaults. -/
def DetectionParams.default : DetectionParams :=
  { dp := 1, min_dist := 50, param1 := 50, param2 := 30, min_radius := 10,
    max_radius := 100, blur_kernel_size := 5, median_blur_size := 5,
    use_clahe := true, clahe_clip_limit := 2, clahe_tile_grid_size := (8, 8) }

/-- The squared centre distance of `_remove_overlapping_circles`:
`(circle1.x - circle2.x)**2 + (circle1.y - circle2.y)**2`. -/
def centerDistSq (c1 c2 : Circle) : ℤ :=
  (c1.x - c2.x) ^ 2 + (c1.y - c2.y) ^ 2

/-- The overlap test of `_remove_overlapping_circles`:
`distance < min_radius * overlap_threshold` with `distance = sqrt(centerDistSq)`
and `overlap_threshold = 0.7`. Squaring both sides (legitimate because
`sqrt d2 < thr` iff `0 < thr` and `d2 < thr^2`; see
`circlesOverlap_iff_sqrt_lt`) keeps the test exactly decidable over ℚ. -/
def circlesOverlap (c1 c2 : Circle) : Bool :=
  decide (0 < ((min c1.radius c2.radius : ℤ) : ℚ) * (7/10) ∧
    ((centerDistSq c1 c2 : ℤ) : ℚ) < (((min c1.radius c2.radius : ℤ) : ℚ) * (7/10)) ^ 2)

/-- Justification that the squared form is the source's `sqrt`-comparison. -/
theorem circlesOverlap_iff_sqrt_lt (c1 c2 : Circle) :
    circlesOverlap c1 c2 = true ↔
      Real.sqrt ((centerDistSq c1 c2 : ℤ) : ℝ) <
        ((min c1.radius c2.radius : ℤ) : ℝ) * (7/10) := by
  rw [circlesOverlap, decide_eq_true_iff]
  constructor
  · rintro ⟨hpos, hlt⟩
    have hposR : (0 : ℝ) < ((min c1.radius c2.radius : ℤ) : ℝ) * (7/10) := by
      have := (Rat.cast_lt (K := ℝ)).mpr hpos
      push_cast at this
      push_cast
      linarith
    refine (Real.sqrt_lt' hposR).mpr ?_
    have := (Rat.cast_lt (K := ℝ)).mpr hlt
    push_cast at this
    push_cast
    linarith
  · intro h
    have hposR : (0 : ℝ) < ((min c1.radius c2.radius : ℤ) : ℝ) * (7/10) :=
      lt_of_le_of_lt (Real.sqrt_nonneg _) h
    have hpos : (0 : ℚ) < ((min c1.radius c2.radius : ℤ) : ℚ) * (7/10) := by
      rw [← Rat.cast_lt (K := ℝ)]
      push_cast
      push_cast at hposR
      linarith
    refine ⟨hpos, ?_⟩
    have hlt := (Real.sqrt_lt' hposR).mp h
    rw [← Rat.cast_lt (K := ℝ)]
    push_cast
    push_cast at hlt
    linarith

/-- Loop body of `_remove_overlapping_circles`: `result` accumulates accepted
circles in input order; a candidate is dropped iff it overlaps one of them. -/
def removeOverlapAux (acc : List Circle) : List Circle → List Circle
  | [] => acc
  | c :: rest =>
    if acc.any (fun c2 => circlesOverlap c c2) then removeOverlapAux acc rest
    else removeOverlapAux (acc ++ [c]) rest

/-- Source `CircleDetector._remove_overlapping_circles` (overlap_threshold = 0.7). -/
def remove_overlapping_circles (circles : List Circle) : List Circle :=
  if circles.length ≤ 1 then circles else removeOverlapAux [] circles

/-- Source `CircleDetector.filter_circles`: confidence filter, then `[:max_circles]`
truncation, then overlap removal. -/
def filter_circles (circles : List Circle) (min_confidence : ℚ) (max_circles : ℕ) :
    List Circle :=
  remove_overlapping_circles
    (((circles.filter fun c => decide (min_confidence ≤ c.confidence)).take max_circles))

theorem removeOverlapAux_sublist (l acc : List Circle) :
    (removeOverlapAux acc l).Sublist (acc ++ l) := by
  induction l generalizing acc with
  | nil => simp [removeOverlapAux]
  | cons c rest ih =>
    simp only [removeOverlapAux]
    split
    · exact (ih acc).trans ((List.sublist_cons_self c rest).append_left acc)
    · have h2 := ih (acc ++ [c])
      rw [List.append_assoc] at h2
      simpa using h2

theorem remove_overlapping_sublist (circles : List Circle) :
    (remove_overlapping_circles circles).Sublist circles := by
  unfold remove_overlapping_circles
  split
  · exact List.Sublist.refl _
  · simpa using removeOverlapAux_sublist circles []

theorem removeOverlapAux_pairwise (l acc : List Circle)
    (hacc : acc.Pairwise fun a b => circlesOverlap b a = false) :
    (removeOverlapAux acc l).Pairwise fun a b => circlesOverlap b a = false := by
  induction l generalizing acc with
  | nil => exact hacc
  | cons c rest ih =>
    simp only [removeOverlapAux]
    split
    · exact ih acc hacc
    · rename_i hnone
      refine ih (acc ++ [c]) ?_
      rw [List.pairwise_append]
      refine ⟨hacc, List.pairwise_singleton _ _, ?_⟩
      intro a ha b hb
      rw [List.mem_singleton] at hb
      subst hb
      have := List.any_eq_false.mp (Bool.not_eq_true _ ▸ hnone) a ha
      exact Bool.not_eq_true _ ▸ this

theorem pairwise_of_length_le_one {α : Type} {R : α → α → Prop} (l : List α)
    (h : l.length ≤ 1) : l.Pairwise R := by
  match l with
  | [] => exact List.Pairwise.nil
  | [a] => exact List.pairwise_singleton R a
  | a :: b :: t => simp at h

/-- Overlap is symmetric in the two circles. -/
theorem circlesOverlap_symm (a b : Circle) : circlesOverlap a b = circlesOverlap b a := by
  unfold circlesOverlap centerDistSq
  rw [decide_eq_decide]
  rw [min_comm a.radius b.radius]
  constructor <;> rintro ⟨h1, h2⟩ <;> refine ⟨h1, ?_⟩ <;>
    · refine lt_of_le_of_lt (le_of_eq ?_) h2
      push_cast
      ring

/-- Claim C2: `filter_circles` keeps at most `max_circles` circles, every kept
circle has confidence ≥ `min_confidence`, the output is a subsequence of the
confidence-filtered and truncated input (so overlap removal only drops
circles, in input order), and no two output circles overlap: neither centre
lies within 0.7 × min(r1, r2) of the other. -/
theorem filter_circles_spec (circles : List Circle) (min_confidence : ℚ)
    (max_circles : ℕ) :
    (filter_circles circles min_confidence max_circles).length ≤ max_circles ∧
    (∀ c ∈ filter_circles circles min_confidence max_circles,
      min_confidence ≤ c.confidence) ∧
    (filter_circles circles min_confidence max_circles).Sublist
      ((circles.filter fun c => decide (min_confidence ≤ c.confidence)).take max_circles) ∧
    (filter_circles circles min_confidence max_circles).Pairwise
      (fun a b => circlesOverlap a b = false ∧ circlesOverlap b a = false) := by
  have hsub : (filter_circles circles min_confidence max_circles).Sublist
      ((circles.filter fun c => decide (min_confidence ≤ c.confidence)).take max_circles) :=
    remove_overlapping_sublist _
  refine ⟨?_, ?_, hsub, ?_⟩
  · exact hsub.length_le.trans (by simpa using List.length_take_le max_circles _)
  · intro c hc
    have : c ∈ (circles.filter fun c => decide (min_confidence ≤ c.confidence)).take
        max_circles := hsub.subset hc
    have := List.mem_of_mem_take this
    simpa using (List.mem_filter.mp this).2
  · have hpw : (filter_circles circles min_confidence max_circles).Pairwise
        (fun a b => circlesOverlap b a = false) := by
      unfold filter_circles remove_overlapping_circles
      split
      · rename_i hlen
        exact pairwise_of_length_le_one _ hlen
      · exact removeOverlapAux_pairwise _ [] List.Pairwise.nil
    exact hpw.imp fun h => ⟨by rw [circlesOverlap_symm]; exact h, h⟩

/-- Source `CircleDetector.calculate_confidence`, with the three cv2-based sub-scores
(`_calculate_edge_strength`, `_calculate_completeness`,
`_calculate_geometry_consistency`) abstracted as function parameters: the
claim depends only on the boundary test, the fixed 0.4/0.4/0.2 weights and
the final clamp. `h`/`w` are `image.shape`. -/
def calculate_confidence (edgeScore completenessScore geometryScore : ℤ → ℤ → ℤ → ℚ)
    (h w : ℕ) (x y radius : ℤ) : ℚ :=
  if x - radius < 0 ∨ x + radius ≥ (w : ℤ) ∨ y - radius < 0 ∨ y + radius ≥ (h : ℤ) then
    0
  else
    min 1 (max 0 (edgeScore x y radius * (2/5) +
      completenessScore x y radius * (2/5) + geometryScore x y radius * (1/5)))

/-- Claim C3: `calculate_confidence` always lands in [0, 1]; it is 0 exactly
on the out-of-bounds branch and otherwise the clamped 0.4/0.4/0.2 weighted
combination of the three sub-scores, whatever values those produce. -/
theorem calculate_confidence_spec
    (edgeScore completenessScore geometryScore : ℤ → ℤ → ℤ → ℚ)
    (h w : ℕ) (x y radius : ℤ) :
    (0 ≤ calculate_confidence edgeScore completenessScore geometryScore h w x y radius ∧
      calculate_confidence edgeScore completenessScore geometryScore h w x y radius ≤ 1) ∧
    calculate_confidence edgeScore completenessScore geometryScore h w x y radius =
      (if x - radius < 0 ∨ x + radius ≥ (w : ℤ) ∨ y - radius < 0 ∨ y + radius ≥ (h : ℤ)
        then 0
        else min 1 (max 0 (edgeScore x y radius * (2/5) +
          completenessScore x y radius * (2/5) + geometryScore x y radius * (1/5)))) := by
  refine ⟨?_, rfl⟩
  unfold calculate_confidence
  split
  · norm_num
  · constructor
    · exact le_min (by norm_num) (le_max_left _ _)
    · exact min_le_left _ _

/-- Source `CircleDetector.auto_adjust_params`, parameterised by the mean intensity
and standard deviation (`contrast`) that numpy computes on the preprocessed
image. The new params object starts as a `__dict__` copy of the current one;
param1/param2 are then adjusted from the current values. -/
def auto_adjust_params (params : DetectionParams) (mean_intensity contrast : ℚ) :
    DetectionParams :=
  let np1 :=
    if mean_intensity < 100 then { params with param1 := max 30 (params.param1 - 20) }
    else if mean_intensity > 180 then { params with param1 := min 100 (params.param1 + 20) }
    else params
  if contrast < 30 then { np1 with param2 := max 20 (params.param2 - 10) }
  else if contrast > 80 then { np1 with param2 := min 50 (params.param2 + 10) }
  else np1

/-- Claim C9: `auto_adjust_params` returns a params object whose `param1` is
lowered by 20 (floor 30) for dark images and raised by 20 (ceiling 100) for
bright ones, whose `param2` is lowered by 10 (floor 20) for low contrast and
raised by 10 (ceiling 50) for high contrast, and which agrees with the
current params on every other field; being a pure function of the stored
params, it leaves the detector's own params unchanged. -/
theorem auto_adjust_params_spec (params : DetectionParams) (mean_intensity contrast : ℚ) :
    (auto_adjust_params params mean_intensity contrast).param1 =
      (if mean_intensity < 100 then max 30 (params.param1 - 20)
       else if 180 < mean_intensity then min 100 (params.param1 + 20)
       else params.param1) ∧
    (auto_adjust_params params mean_intensity contrast).param2 =
      (if contrast < 30 then max 20 (params.param2 - 10)
       else if 80 < contrast then min 50 (params.param2 + 10)
       else params.param2) ∧
    (auto_adjust_params params mean_intensity contrast) =
      { params with
          param1 := (auto_adjust_params params mean_intensity contrast).param1,
          param2 := (auto_adjust_params params mean_intensity contrast).param2 } := by
  unfold auto_adjust_params
  split_ifs <;> simp_all [gt_iff_lt]

/-! ### src/core/edge_detection.py -/

/-- The `EdgeDetectionParams` dataclass fields (before `__post_init__`). -/
structure EdgeDetectionParams where
  threshold1 : ℤ
  threshold2 : ℤ
  aperture_size : ℤ
  l2_gradient : Bool
  gaussian_blur : Bool
  blur_kernel_size : ℤ
  median_filter : Bool
  median_kernel_size : ℤ
  clahe_enabled : Bool
  clahe_clip_limit : ℚ
  morphology_enabled : Bool
  morph_kernel_size : ℤ
  edge_thinning : Bool
  remove_noise : Bool
deriving DecidableEq

/-- Source `EdgeDetectionParams.__post_init__`: clamp both thresholds into [1, 255],
force the blur kernel odd and ≥ 3, then bump threshold2 to threshold1 + 50
whenever it is not strictly above threshold1. Runs on construction and after
`update_params`. -/
def EdgeDetectionParams.postInit (p : EdgeDetectionParams) : EdgeDetectionParams :=
  let t1 := max 1 (min 255 p.threshold1)
  let t2 := max 1 (min 255 p.threshold2)
  let bk0 := max 3 p.blur_kernel_size
  { p with
      threshold1 := t1,
      threshold2 := if t2 ≤ t1 then t1 + 50 else t2,
      blur_kernel_size := if bk0 % 2 = 0 then bk0 + 1 else bk0 }

/-- The dataclass field defaults of `EdgeDetectionParams` (raw, before
`__post_init__`). -/
def edgeParamsDefaults : EdgeDetectionParams :=
  { threshold1 := 50, threshold2 := 150, aperture_size := 3, l2_gradient := false,
    gaussian_blur := true, blur_kernel_size := 5, median_filter := false,
    median_kernel_size := 5, clahe_enabled := false, clahe_clip_limit := 2,
    morphology_enabled := false, morph_kernel_size := 3, edge_thinning := false,
    remove_noise := true }

/-- Claim C5, counterexample: `EdgeDetectionParams(threshold1=250,
threshold2=100)` ends with threshold2 = 300, outside [1, 255] — the
auto-bump `threshold1 + 50` is applied after the clamp and can reach 305. -/
theorem edge_params_threshold2_overflow :
    ({ edgeParamsDefaults with threshold1 := 250, threshold2 := 100
      } : EdgeDetectionParams).postInit.threshold2 = 300 ∧
    ¬ ({ edgeParamsDefaults with threshold1 := 250, threshold2 := 100
      } : EdgeDetectionParams).postInit.threshold2 ≤ 255 := by
  constructor <;> decide

/-- Claim C5, amended: after `__post_init__`, threshold1 ∈ [1, 255],
threshold2 ∈ [1, 305] (clamped into [1, 255] and then possibly bumped to
threshold1 + 50, which can reach 305), threshold2 > threshold1, and the blur
kernel is an odd integer ≥ 3. -/
theorem edge_params_validation (p : EdgeDetectionParams) :
    1 ≤ p.postInit.threshold1 ∧ p.postInit.threshold1 ≤ 255 ∧
    1 ≤ p.postInit.threshold2 ∧ p.postInit.threshold2 ≤ 305 ∧
    p.postInit.threshold1 < p.postInit.threshold2 ∧
    3 ≤ p.postInit.blur_kernel_size ∧ p.postInit.blur_kernel_size % 2 = 1 := by
  unfold EdgeDetectionParams.postInit
  dsimp only
  split_ifs <;> (refine ⟨?_, ?_, ?_, ?_, ?_, ?_, ?_⟩ <;> omega)

/-- A numpy array as the edge engine sees it: its shape and its flattened
bytes (`tobytes`). `size` is the element count, the product of the shape. -/
structure NpImg where
  shape : List ℕ
  data : List ℕ
deriving DecidableEq

def NpImg.size (img : NpImg) : ℕ := img.shape.prod

/-- Models `np.count_nonzero`. -/
def countNonzero (img : NpImg) : ℕ := img.data.countP fun v => decide (v ≠ 0)

/-- Models `np.zeros_like(image[:,:] if len(image.shape) == 3 else image)`: for a
3-d array `image[:,:]` is the whole array, so the zero image always has the
input's shape. -/
def zerosLike (img : NpImg) : NpImg :=
  { shape := img.shape, data := List.replicate img.shape.prod 0 }

/-- The `EdgeDetectionResult` dataclass: `__post_init__` recomputes `edge_count` from the
edge image and stamps the creation time. -/
structure EDResult where
  original_image : NpImg
  edge_image : NpImg
  processed_image : Option NpImg
  processing_time : ℚ
  edge_count : ℕ
  params_used : Option EdgeDetectionParams
  timestamp : ℚ

/-- Builds an `EdgeDetectionResult` the way the dataclass constructor plus
`__post_init__` does: `edge_count := count_nonzero(edge_image)` and
`timestamp := time.time()` (the supplied clock value `now`). -/
def mkEDResult (orig edge : NpImg) (processed : Option NpImg) (ptime : ℚ)
    (params : Option EdgeDetectionParams) (now : ℚ) : EDResult :=
  { original_image := orig, edge_image := edge, processed_image := processed,
    processing_time := ptime, edge_count := countNonzero edge,
    params_used := params, timestamp := now }

/-- What `get_cache_key` hashes for the image part: the bytes for images
under 1,000,000 elements, only the shape from there on. (The Python `hash`
calls are modelled by the pre-hash data itself, collisions aside.) -/
inductive ImgKey where
  | bytes (data : List ℕ)
  | shp (s : List ℕ)
deriving DecidableEq

abbrev CacheKey := ImgKey × EdgeDetectionParams

/-- Source `EdgeDetectionManager.get_cache_key`:
`hash(image.tobytes()) if image.size < 1000000 else hash(str(image.shape))`,
combined with the serialized parameters. -/
def get_cache_key (image : NpImg) (params : EdgeDetectionParams) : CacheKey :=
  (if image.size < 1000000 then ImgKey.bytes image.data else ImgKey.shp image.shape,
   params)

/-- The `EdgeDetectionManager` state: current params and the bounded result
cache (`cache_size_limit = 10`). The telemetry fields (`statistics`,
`last_result`, `is_processing`) and the worker queue do not affect the
claims and are omitted. -/
structure EDState where
  params : EdgeDetectionParams
  result_cache : List (CacheKey × EDResult)
  cache_size_limit : ℕ

/-- Source `EdgeDetectionManager.__init__`. -/
def initEDState : EDState :=
  { params := edgeParamsDefaults.postInit, result_cache := [], cache_size_limit := 10 }

/-- Python `min(iterable, key=...)` over the cache, scanning left to right
and replacing the current best only on a strictly smaller timestamp (so the
first minimum wins ties). -/
def minFrom (best : CacheKey × EDResult) : List (CacheKey × EDResult) → CacheKey × EDResult
  | [] => best
  | e :: t => minFrom (if e.2.timestamp < best.2.timestamp then e else best) t

def minTimestampEntry : List (CacheKey × EDResult) → Option (CacheKey × EDResult)
  | [] => none
  | e :: t => some (minFrom e t)

/-- Source `EdgeDetectionManager._cache_result`: if the cache is full, delete the
entry with the oldest timestamp, then store the new result. -/
def cache_result (limit : ℕ) (cache : List (CacheKey × EDResult)) (key : CacheKey)
    (r : EDResult) : List (CacheKey × EDResult) :=
  if limit ≤ cache.length then
    match minTimestampEntry cache with
    | some best => aset key r (aerase best.1 cache)
    | none => aset key r cache
  else aset key r cache

/-- Source `EdgeDetectionManager.set_params`: replace the params, clear the cache. -/
def set_params (s : EDState) (p : EdgeDetectionParams) : EDState :=
  { s with params := p, result_cache := [] }

/-- Source `EdgeDetectionManager.update_params`: the `setattr` loop is modelled by
the field update `upd`; `__post_init__` then re-validates and the cache is
cleared. -/
def update_params (s : EDState) (upd : EdgeDetectionParams → EdgeDetectionParams) :
    EDState :=
  { s with params := (upd s.params).postInit, result_cache := [] }

/-- Source `EdgeDetectionManager.detect_edges_sync`. The cv2 pipeline
(`_preprocess_image` → `Canny` → `_postprocess_edges`) is the function
parameter `pipeline`, returning `(preprocessed, processed_edges)` on
success and `none` when it raises; `t0`/`t1` are the start/end wall-clock
readings. On a hit the cached result object's timestamp is refreshed in
place; on an internal exception a blank result is returned and nothing is
cached. -/
def detect_edges_sync (pipeline : NpImg → EdgeDetectionParams → Option (NpImg × NpImg))
    (s : EDState) (image : NpImg) (t0 t1 : ℚ) : EDResult × EDState :=
  match alookup (get_cache_key image s.params) s.result_cache with
  | some cached =>
    ({ cached with timestamp := t1 },
     { s with
        result_cache := aset (get_cache_key image s.params)
          ({ cached with timestamp := t1 }) s.result_cache })
  | none =>
    match pipeline image s.params with
    | some res =>
      (mkEDResult image res.2 (some res.1) (t1 - t0) (some s.params.postInit) t1,
       { s with
          result_cache := cache_result s.cache_size_limit s.result_cache
            (get_cache_key image s.params)
            (mkEDResult image res.2 (some res.1) (t1 - t0) (some s.params.postInit) t1) })
    | none =>
      (mkEDResult image (zerosLike image) none (t1 - t0) none t1, s)

/-- Driver steps: the manager operations the claims quantify over. -/
inductive EDOp where
  | detect (image : NpImg) (t0 t1 : ℚ)
  | setP (p : EdgeDetectionParams)
  | updateP (upd : EdgeDetectionParams → EdgeDetectionParams)

def stepED (pipeline : NpImg → EdgeDetectionParams → Option (NpImg × NpImg))
    (s : EDState) : EDOp → EDState
  | .detect image t0 t1 => (detect_edges_sync pipeline s image t0 t1).2
  | .setP p => set_params s p
  | .updateP upd => update_params s upd

def runED (pipeline : NpImg → EdgeDetectionParams → Option (NpImg × NpImg))
    (s : EDState) (ops : List EDOp) : EDState :=
  ops.foldl (stepED pipeline) s

theorem aset_length_le {κ β : Type} [DecidableEq κ] (k : κ) (v : β) (l : List (κ × β)) :
    (aset k v l).length ≤ l.length + 1 := by
  induction l with
  | nil => simp [aset]
  | cons e t ih =>
    simp only [aset]
    split <;> simp only [List.length_cons] <;> omega

theorem aset_length_of_lookup {κ β : Type} [DecidableEq κ] (k : κ) (v b : β)
    (l : List (κ × β)) (h : alookup k l = some b) : (aset k v l).length = l.length := by
  induction l with
  | nil => simp [alookup] at h
  | cons e t ih =>
    simp only [alookup] at h
    simp only [aset]
    split at h
    · simp [*]
    · rename_i hne
      simp only [hne, if_false, List.length_cons, ih h]

theorem aerase_length_of_mem {κ β : Type} [DecidableEq κ] (k : κ) (l : List (κ × β))
    (h : k ∈ l.map Prod.fst) : (aerase k l).length + 1 = l.length := by
  induction l with
  | nil => simp at h
  | cons e t ih =>
    simp only [List.map_cons, List.mem_cons] at h
    simp only [aerase]
    by_cases he : e.1 = k
    · simp [he]
    · rcases h with h | h
      · exact absurd h.symm he
      · simp only [he, if_false, List.length_cons]
        rw [← ih h]

theorem minFrom_spec (t : List (CacheKey × EDResult)) (best : CacheKey × EDResult) :
    (minFrom best t = best ∨ minFrom best t ∈ t) ∧
    (minFrom best t).2.timestamp ≤ best.2.timestamp ∧
    ∀ e ∈ t, (minFrom best t).2.timestamp ≤ e.2.timestamp := by
  induction t generalizing best with
  | nil => simp [minFrom]
  | cons e t ih =>
    simp only [minFrom]
    split
    · rename_i hlt
      obtain ⟨hmem, hle, hall⟩ := ih e
      refine ⟨?_, ?_, ?_⟩
      · rcases hmem with h | h
        · exact Or.inr (by simp [h])
        · exact Or.inr (List.mem_cons_of_mem _ h)
      · exact hle.trans (le_of_lt hlt)
      · intro x hx
        rcases List.mem_cons.mp hx with h | h
        · exact h ▸ hle
        · exact hall x h
    · rename_i hnlt
      obtain ⟨hmem, hle, hall⟩ := ih best
      refine ⟨?_, hle, ?_⟩
      · rcases hmem with h | h
        · exact Or.inl h
        · exact Or.inr (List.mem_cons_of_mem _ h)
      · intro x hx
        rcases List.mem_cons.mp hx with h | h
        · exact h ▸ (hle.trans (not_lt.mp hnlt))
        · exact hall x h

theorem minTimestampEntry_spec (cache : List (CacheKey × EDResult)) (h : cache ≠ []) :
    ∃ e, minTimestampEntry cache = some e ∧ e ∈ cache ∧
      ∀ e' ∈ cache, e.2.timestamp ≤ e'.2.timestamp := by
  match cache with
  | [] => exact absurd rfl h
  | e :: t =>
    obtain ⟨hmem, hle, hall⟩ := minFrom_spec t e
    refine ⟨minFrom e t, rfl, ?_, ?_⟩
    · rcases hmem with h | h
      · simp [h]
      · exact List.mem_cons_of_mem _ h
    · intro x hx
      rcases List.mem_cons.mp hx with h | h
      · exact h ▸ hle
      · exact hall x h

theorem cache_result_length (cache : List (CacheKey × EDResult)) (key : CacheKey)
    (r : EDResult) (h : cache.length ≤ 10) :
    (cache_result 10 cache key r).length ≤ 10 := by
  unfold cache_result
  split
  · rename_i hfull
    have hne : cache ≠ [] := by
      intro he
      rw [he] at hfull
      simp at hfull
    obtain ⟨e, hmin, hmem, -⟩ := minTimestampEntry_spec cache hne
    split
    · rename_i best hbest
      rw [hmin] at hbest
      injection hbest with hbe
      subst hbe
      have hkey : e.1 ∈ cache.map Prod.fst := List.mem_map_of_mem Prod.fst hmem
      have hlen := aerase_length_of_mem e.1 cache hkey
      have h2 := aset_length_le key r (aerase e.1 cache)
      omega
    · rename_i hnone
      rw [hmin] at hnone
      exact absurd hnone (by simp)
  · rename_i hnotfull
    have h2 := aset_length_le key r cache
    omega

theorem detect_cache_length (pipeline : NpImg → EdgeDetectionParams → Option (NpImg × NpImg))
    (s : EDState) (image : NpImg) (t0 t1 : ℚ) (hlim : s.cache_size_limit = 10)
    (h : s.result_cache.length ≤ 10) :
    (detect_edges_sync pipeline s image t0 t1).2.result_cache.length ≤ 10 := by
  unfold detect_edges_sync
  cases hl : alookup (get_cache_key image s.params) s.result_cache with
  | some cached =>
    exact le_of_eq_of_le (aset_length_of_lookup _ _ _ _ hl) h
  | none =>
    cases hp : pipeline image s.params with
    | some res =>
      show (cache_result s.cache_size_limit _ _ _).length ≤ 10
      rw [hlim]
      exact cache_result_length s.result_cache _ _ h
    | none =>
      exact h

theorem stepED_limit (pipeline : NpImg → EdgeDetectionParams → Option (NpImg × NpImg))
    (s : EDState) (op : EDOp) :
    (stepED pipeline s op).cache_size_limit = s.cache_size_limit := by
  cases op with
  | detect image t0 t1 =>
    show (detect_edges_sync pipeline s image t0 t1).2.cache_size_limit = _
    unfold detect_edges_sync
    cases alookup (get_cache_key image s.params) s.result_cache with
    | some cached => rfl
    | none =>
      cases pipeline image s.params with
      | some res => rfl
      | none => rfl
  | setP p => rfl
  | updateP upd => rfl

/-- Along any sequence of manager operations from `__init__`, the result
cache stays within the 10-entry limit. -/
theorem runED_cache_length (pipeline : NpImg → EdgeDetectionParams → Option (NpImg × NpImg))
    (ops : List EDOp) :
    (runED pipeline initEDState ops).cache_size_limit = 10 ∧
    (runED pipeline initEDState ops).result_cache.length ≤ 10 := by
  suffices h : ∀ s : EDState, s.cache_size_limit = 10 → s.result_cache.length ≤ 10 →
      (runED pipeline s ops).cache_size_limit = 10 ∧
      (runED pipeline s ops).result_cache.length ≤ 10 by
    exact h initEDState rfl (by simp [initEDState])
  induction ops with
  | nil => exact fun s h1 h2 => ⟨h1, h2⟩
  | cons op rest ih =>
    intro s h1 h2
    refine ih (stepED pipeline s op) ?_ ?_
    · rw [stepED_limit]
      exact h1
    · cases op with
      | detect image t0 t1 => exact detect_cache_length pipeline s image t0 t1 h1 h2
      | setP p => simp [stepED, set_params]
      | updateP upd => simp [stepED, update_params]

/-- Claim C6: the edge-result cache never exceeds 10 entries along any run
from `__init__`; on a full cache `_cache_result` evicts an entry whose
timestamp is minimal; a cache hit refreshes the hit entry's timestamp (in
the returned result and in the cache); and `set_params` / `update_params`
empty the cache. -/
theorem edge_cache_policy (pipeline : NpImg → EdgeDetectionParams → Option (NpImg × NpImg))
    (ops : List EDOp) (s : EDState) (image : NpImg) (t0 t1 : ℚ)
    (p : EdgeDetectionParams) (upd : EdgeDetectionParams → EdgeDetectionParams)
    (key : CacheKey) (r : EDResult) :
    (runED pipeline initEDState ops).result_cache.length ≤ 10 ∧
    (s.cache_size_limit ≤ s.result_cache.length → s.result_cache ≠ [] →
      ∃ e, minTimestampEntry s.result_cache = some e ∧ e ∈ s.result_cache ∧
        (∀ e' ∈ s.result_cache, e.2.timestamp ≤ e'.2.timestamp) ∧
        cache_result s.cache_size_limit s.result_cache key r =
          aset key r (aerase e.1 s.result_cache)) ∧
    (∀ cached, alookup (get_cache_key image s.params) s.result_cache = some cached →
      (detect_edges_sync pipeline s image t0 t1).1 = { cached with timestamp := t1 } ∧
      alookup (get_cache_key image s.params)
          (detect_edges_sync pipeline s image t0 t1).2.result_cache =
        some { cached with timestamp := t1 }) ∧
    (set_params s p).result_cache = [] ∧
    (update_params s upd).result_cache = [] := by
  refine ⟨(runED_cache_length pipeline ops).2, ?_, ?_, rfl, rfl⟩
  · intro hfull hne
    obtain ⟨e, hmin, hmem, hall⟩ := minTimestampEntry_spec s.result_cache hne
    refine ⟨e, hmin, hmem, hall, ?_⟩
    unfold cache_result
    rw [if_pos hfull, hmin]
  · intro cached hl
    unfold detect_edges_sync
    rw [hl]
    exact ⟨rfl, alookup_aset_self _ _ _⟩

/-- Claim C7: when the detection pipeline raises, `detect_edges_sync`
returns (instead of raising) a result whose edge image is all zeros, whose
edge count is therefore 0, and whose processing_time is the elapsed time;
the failed result is not cached. -/
theorem detect_edges_error_path
    (pipeline : NpImg → EdgeDetectionParams → Option (NpImg × NpImg))
    (s : EDState) (image : NpImg) (t0 t1 : ℚ)
    (hmiss : alookup (get_cache_key image s.params) s.result_cache = none)
    (hfail : pipeline image s.params = none) :
    (detect_edges_sync pipeline s image t0 t1).1.edge_image = zerosLike image ∧
    (detect_edges_sync pipeline s image t0 t1).1.edge_count = 0 ∧
    (detect_edges_sync pipeline s image t0 t1).1.processing_time = t1 - t0 ∧
    (detect_edges_sync pipeline s image t0 t1).2 = s := by
  unfold detect_edges_sync
  rw [hmiss, hfail]
  refine ⟨rfl, ?_, rfl, rfl⟩
  simp only [mkEDResult, countNonzero, zerosLike]
  exact countP_replicate_false (fun v => decide (v ≠ 0)) 0 (by decide) _

theorem detect_edges_error_path_witness :
    (detect_edges_sync (fun _ _ => none) initEDState ⟨[2, 2], [1, 2, 3, 4]⟩ 0 1).1.edge_image
        = zerosLike ⟨[2, 2], [1, 2, 3, 4]⟩ ∧
    (detect_edges_sync (fun _ _ => none) initEDState ⟨[2, 2], [1, 2, 3, 4]⟩ 0 1).1.edge_count
        = 0 ∧
    (detect_edges_sync (fun _ _ => none) initEDState ⟨[2, 2], [1, 2, 3, 4]⟩ 0 1).1.processing_time
        = 1 - 0 ∧
    (detect_edges_sync (fun _ _ => none) initEDState ⟨[2, 2], [1, 2, 3, 4]⟩ 0 1).2
        = initEDState :=
  detect_edges_error_path (fun _ _ => none) initEDState ⟨[2, 2], [1, 2, 3, 4]⟩ 0 1 rfl rfl

/-- Two large images (≥ 1,000,000 elements) with the same shape but
different bytes: all-zero versus leading-one. -/
def bigImgA : NpImg := ⟨[1000, 1000], 0 :: List.replicate 999999 0⟩

def bigImgB : NpImg := ⟨[1000, 1000], 1 :: List.replicate 999999 1⟩

/-- A stand-in detection pipeline whose edge output is the input image:
enough to witness that a false cache hit returns the wrong image's edges. -/
def identityPipeline : NpImg → EdgeDetectionParams → Option (NpImg × NpImg) :=
  fun img _ => some (img, img)

/-- Claim C4 (code bug): the cache key of an image with ≥ 1,000,000
elements keeps only the shape, so after detecting edges on `bigImgA`, the
call on the byte-different, same-shape `bigImgB` is a false cache hit: it
returns `bigImgA`'s edge image, so the result does not depend only on the
image bytes and the parameters. -/
theorem large_image_cache_collision :
    bigImgA ≠ bigImgB ∧
    1000000 ≤ bigImgA.size ∧
    get_cache_key bigImgA initEDState.params = get_cache_key bigImgB initEDState.params ∧
    (detect_edges_sync identityPipeline
        (detect_edges_sync identityPipeline initEDState bigImgA 0 1).2 bigImgB 1 2).1.edge_image
      = bigImgA ∧
    (detect_edges_sync identityPipeline
        (detect_edges_sync identityPipeline initEDState bigImgA 0 1).2 bigImgB 1 2).1.edge_image
      ≠ bigImgB := by
  have hAB : bigImgA ≠ bigImgB := by
    intro h
    have hd := congrArg NpImg.data h
    simp only [bigImgA, bigImgB] at hd
    injection hd with h1 _
    exact absurd h1 (by decide)
  have hEq : (detect_edges_sync identityPipeline
      (detect_edges_sync identityPipeline initEDState bigImgA 0 1).2 bigImgB 1 2).1.edge_image
      = bigImgA := rfl
  exact ⟨hAB, by decide, rfl, hEq, fun h => hAB (hEq ▸ h)⟩

/-! ### src/core/circle_capture.py -/

/-- A decoded cv2 image: `channels = none` is a 2-d grayscale array,
`channels = some c` an H×W×c array. -/
structure CvImage where
  h : ℕ
  w : ℕ
  channels : Option ℕ
deriving DecidableEq

def CvImage.size (img : CvImage) : ℕ := img.h * img.w * img.channels.getD 1

/-- The length of a numpy basic slice `a[start:stop]` along an axis of
length `n`, for `start ≥ 0` (which `extract_circle_region` guarantees via
`max(0, ...)`): a negative `stop` counts from the end of the axis. -/
def sliceLen (n : ℕ) (start stop : ℤ) : ℕ :=
  ((if stop < 0 then max 0 ((n : ℤ) + stop) else min stop (n : ℤ)) -
    min start (n : ℤ)).toNat

/-- The extracted region: its shape, and (for the transparent path) the
alpha plane, which is the circular mask. -/
structure RegionImage where
  h : ℕ
  w : ℕ
  channels : ℕ
  alpha : Option (List ℕ)
deriving DecidableEq

/-- Source `CircleCapture.extract_circle_region`.  `create_mask` abstracts
`create_circle_mask` (cv2 rasterisation + INTER_AREA downsample), taking
`(width, height, cx, cy, radius)` of the cropped region. -/
def extract_circle_region (create_mask : ℕ → ℕ → ℤ → ℤ → ℤ → List ℕ)
    (image : CvImage) (circle : Circle) (padding : ℤ)
    (transparent_background : Bool) : Option RegionImage :=
  if image.size = 0 then none
  else
    let x1 : ℤ := max 0 (circle.x - circle.radius - padding)
    let y1 : ℤ := max 0 (circle.y - circle.radius - padding)
    let x2 : ℤ := min (image.w : ℤ) (circle.x + circle.radius + padding + 1)
    let y2 : ℤ := min (image.h : ℤ) (circle.y + circle.radius + padding + 1)
    let rh := sliceLen image.h y1 y2
    let rw' := sliceLen image.w x1 x2
    if rh * rw' * image.channels.getD 1 = 0 then none
    else
      if transparent_background then
        some { h := rh, w := rw', channels := 4,
               alpha := some (create_mask rw' rh (circle.x - x1) (circle.y - y1)
                 circle.radius) }
      else
        some { h := rh, w := rw', channels := image.channels.getD 1, alpha := none }

/-- Claim C8 (code bug): for a circle entirely left of the image
(x = -50, y = 50, r = 20, padding 0 on a 100×100 grayscale image) the
padded bounding box intersected with the image bounds is empty — x2 =
min(100, -29) ≤ x1 = 0 — so the spec requires null; but numpy interprets
the negative stop -29 as 100 - 29, and the code returns a non-null 41×71
RGBA region (whose mask is drawn at the out-of-frame centre (-50, 20)).
The third conjunct records the claim's in-bounds example, which does clamp
to [0,0]–[35,35] and returns non-null. -/
theorem extract_region_negative_stop :
    (∀ create_mask, extract_circle_region create_mask ⟨100, 100, none⟩
        (mkCircle (-50) 50 20 0) 0 true =
      some { h := 41, w := 71, channels := 4,
             alpha := some (create_mask 71 41 (-50) 20 20) }) ∧
    min ((100 : ℤ)) ((-50) + 20 + 0 + 1) ≤ max 0 ((-50) - 20 - 0) ∧
    (∀ create_mask, extract_circle_region create_mask ⟨100, 100, some 3⟩
        (mkCircle 5 5 20 0) 10 true =
      some { h := 36, w := 36, channels := 4,
             alpha := some (create_mask 36 36 5 5 20) }) := by
  refine ⟨fun create_mask => ?_, by decide, fun create_mask => ?_⟩ <;> rfl

/-! ### src/gui/image_canvas.py — ImagePyramid -/

/-- PIL image modes the pyramid distinguishes for memory accounting. -/
inductive PilMode where
  | L
  | RGB
  | RGBA
  | other
deriving DecidableEq

/-- Bytes per pixel assumed by `_calculate_image_memory`. -/
def PilMode.bytesPerPixel : PilMode → ℕ
  | .RGBA => 4
  | .RGB => 3
  | .L => 1
  | .other => 4

/-- A PIL image as the pyramid accounts for it: its size and mode (the
pixel content does not enter any memory decision). -/
structure PilImage where
  width : ℕ
  height : ℕ
  mode : PilMode
deriving DecidableEq

/-- Source `ImagePyramid._calculate_image_memory` in MB. -/
def calc_image_memory (img : PilImage) : ℚ :=
  ((img.width * img.height * img.mode.bytesPerPixel : ℕ) : ℚ) / (1024 * 1024)

/-- The numpy array handed to `set_base_image`. -/
inductive NpArray where
  | gray (h w : ℕ)
  | color (h w c : ℕ)

/-- Models `Image.fromarray` (after the BGR→RGB channel reversal): 2-d arrays
become mode L, H×W×4 becomes RGBA, other 3-d arrays RGB. -/
def npToPil : NpArray → PilImage
  | .gray h w => ⟨w, h, PilMode.L⟩
  | .color h w c => ⟨w, h, if c = 4 then PilMode.RGBA else PilMode.RGB⟩

structure PyramidState where
  max_levels : ℕ
  max_memory_mb : ℚ
  pyramid : List (ℚ × PilImage)
  base_image : Option PilImage
  current_memory_mb : ℚ

/-- Source `ImagePyramid.__init__` (defaults: max_levels = 6, max_memory_mb = 512). -/
def initPyramid (max_levels : ℕ) (max_memory_mb : ℚ) : PyramidState :=
  ⟨max_levels, max_memory_mb, [], none, 0⟩

/-- Models `int(dim * scale_factor)` with `scale_factor = (q) ** 0.5` for a
rational `q ≥ 0`: `⌊dim·√q⌋ = ⌊√(dim² · num · den)⌋ / den` exactly. -/
def scaledDim (dim : ℕ) (q : ℚ) : ℕ :=
  Nat.sqrt (dim ^ 2 * q.num.toNat * q.den) / q.den

/-- Source `ImagePyramid.set_base_image`: clear the pyramid, convert the array,
and if the base image alone exceeds the budget, downscale it by
`sqrt(max_memory * 0.8 / base_memory)` before caching it as level 1.0. -/
def set_base_image (s : PyramidState) (arr : NpArray) : PyramidState :=
  if calc_image_memory (npToPil arr) > s.max_memory_mb then
    { s with
        pyramid := [(1, ⟨scaledDim (npToPil arr).width
            (s.max_memory_mb * (4/5) / calc_image_memory (npToPil arr)),
          scaledDim (npToPil arr).height
            (s.max_memory_mb * (4/5) / calc_image_memory (npToPil arr)),
          (npToPil arr).mode⟩)],
        base_image := some ⟨scaledDim (npToPil arr).width
            (s.max_memory_mb * (4/5) / calc_image_memory (npToPil arr)),
          scaledDim (npToPil arr).height
            (s.max_memory_mb * (4/5) / calc_image_memory (npToPil arr)),
          (npToPil arr).mode⟩,
        current_memory_mb := calc_image_memory ⟨scaledDim (npToPil arr).width
            (s.max_memory_mb * (4/5) / calc_image_memory (npToPil arr)),
          scaledDim (npToPil arr).height
            (s.max_memory_mb * (4/5) / calc_image_memory (npToPil arr)),
          (npToPil arr).mode⟩ }
  else
    { s with
        pyramid := [(1, npToPil arr)],
        base_image := some (npToPil arr),
        current_memory_mb := calc_image_memory (npToPil arr) }

/-- Stable insertion sort: `precedes y x` means y stays strictly before x,
so equal-key elements keep their input order, as Python's `list.sort`. -/
def insertOrd {α : Type} (precedes : α → α → Bool) (x : α) : List α → List α
  | [] => [x]
  | y :: ys => if precedes y x then y :: insertOrd precedes x ys else x :: y :: ys

def sortOrd {α : Type} (precedes : α → α → Bool) : List α → List α
  | [] => []
  | x :: xs => insertOrd precedes x (sortOrd precedes xs)

/-- Source `common_zoom_levels = {1.0, 0.5, 0.25, 2.0, 1.5}`. -/
def commonZoomLevels : List ℚ := [1, 1/2, 1/4, 2, 3/2]

/-- Models `importance_order.index(x) if x in importance_order else 999` with
`importance_order = [1.0, 0.5, 2.0, 1.5, 0.25]`. -/
def importanceIndex (z : ℚ) : ℕ :=
  ((([1, 1/2, 2, 3/2, 1/4] : List ℚ).findIdx? fun a => decide (a = z)).getD 999)

/-- Python `list.remove(1.0)` guarded by `if 1.0 in zoom_levels`. -/
def eraseFirst (z : ℚ) : List ℚ → List ℚ
  | [] => []
  | x :: xs => if x = z then xs else x :: eraseFirst z xs

/-- The eviction order `_cleanup_memory` builds: drop the 1.0 level from the
key list, evict uncommon levels first (most distant from 1.0 first), then —
`extend(reversed(common_levels))` — common levels from least important. -/
def cleanup_order (keys : List ℚ) : List ℚ :=
  sortOrd (fun a b => decide (|b - 1| < |a - 1|))
      ((eraseFirst 1 keys).filter fun z => decide (z ∉ commonZoomLevels)) ++
    (sortOrd (fun a b => decide (importanceIndex a < importanceIndex b))
      ((eraseFirst 1 keys).filter fun z => decide (z ∈ commonZoomLevels))).reverse

/-- The eviction loop of `_cleanup_memory`: stop as soon as the pending
allocation fits, else delete the level and release its measured memory. -/
def cleanupLoop (required : ℚ) : PyramidState → List ℚ → PyramidState
  | s, [] => s
  | s, z :: rest =>
    if s.current_memory_mb + required ≤ s.max_memory_mb then s
    else
      match alookup z s.pyramid with
      | some img =>
        cleanupLoop required
          { s with
              pyramid := aerase z s.pyramid,
              current_memory_mb := s.current_memory_mb - calc_image_memory img }
          rest
      | none => cleanupLoop required s rest

/-- Source `ImagePyramid._cleanup_memory`. -/
def cleanup_memory (s : PyramidState) (required : ℚ) : PyramidState :=
  if s.pyramid = [] then s
  else cleanupLoop required s (cleanup_order (s.pyramid.map Prod.fst))

/-- Python `int()` on a float: truncation toward zero. -/
def pyInt (x : ℚ) : ℤ := if 0 ≤ x then ⌊x⌋ else ⌈x⌉

/-- Source `estimated_memory = (new_size[0] * new_size[1] * 3) / (1024 * 1024)`. -/
def estMemory (base : PilImage) (zoom : ℚ) : ℚ :=
  ((pyInt ((base.width : ℚ) * zoom) * pyInt ((base.height : ℚ) * zoom) * 3 : ℤ) : ℚ) /
    (1024 * 1024)

/-- Sources `_create_scaled_image_optimized` / `_progressive_downscale`: every
successful branch resizes to exactly `new_size`, preserving the base
image's mode; a failing resize (negative size) is caught and yields None. -/
def create_scaled_image (base : PilImage) (nw nh : ℤ) : Option PilImage :=
  if nw < 0 ∨ nh < 0 then none
  else some ⟨nw.toNat, nh.toNat, base.mode⟩

/-- The state after the conditional `_cleanup_memory` call inside
`get_image_at_zoom`. -/
def afterCleanup (s : PyramidState) (base : PilImage) (zoom : ℚ) : PyramidState :=
  if s.current_memory_mb + estMemory base zoom > s.max_memory_mb then
    cleanup_memory s (estMemory base zoom)
  else s

/-- The cache-miss path of `get_image_at_zoom`: estimate, clean up if over
budget, skip caching if still over budget or the level cap is reached. -/
def get_image_at_zoom_miss (s : PyramidState) (base : PilImage) (zoom : ℚ) :
    Option PilImage × PyramidState :=
  if (afterCleanup s base zoom).current_memory_mb + estMemory base zoom >
      s.max_memory_mb then
    (create_scaled_image base (pyInt ((base.width : ℚ) * zoom))
      (pyInt ((base.height : ℚ) * zoom)), afterCleanup s base zoom)
  else
    match create_scaled_image base (pyInt ((base.width : ℚ) * zoom))
        (pyInt ((base.height : ℚ) * zoom)) with
    | none => (none, afterCleanup s base zoom)
    | some img =>
      if (afterCleanup s base zoom).pyramid.length < s.max_levels then
        (some img,
         { afterCleanup s base zoom with
            pyramid := (afterCleanup s base zoom).pyramid ++ [(zoom, img)],
            current_memory_mb :=
              (afterCleanup s base zoom).current_memory_mb + calc_image_memory img })
      else (some img, afterCleanup s base zoom)

/-- Source `ImagePyramid.get_image_at_zoom`. -/
def get_image_at_zoom (s : PyramidState) (zoom : ℚ) : Option PilImage × PyramidState :=
  match s.base_image with
  | none => (none, s)
  | some base =>
    match alookup zoom s.pyramid with
    | some img => (some img, s)
    | none => get_image_at_zoom_miss s base zoom

/-- The pyramid operations the claims quantify over. -/
inductive PyrOp where
  | setBase (arr : NpArray)
  | getZoom (zoom : ℚ)

def stepPyr (s : PyramidState) : PyrOp → PyramidState
  | .setBase arr => set_base_image s arr
  | .getZoom z => (get_image_at_zoom s z).2

def runPyr (s : PyramidState) (ops : List PyrOp) : PyramidState :=
  ops.foldl stepPyr s

/-- The memory of the largest cached level: the slack the memory bound can
carry (one admitted allocation's worth). -/
def maxLevelMem (l : List (ℚ × PilImage)) : ℚ :=
  l.foldr (fun e m => max (calc_image_memory e.2) m) 0

/-- The inductive invariant of a pyramid: a non-negative budget, distinct
cached zoom keys, and accounted memory within one cached level of the
budget. -/
def PyrInv (s : PyramidState) : Prop :=
  0 ≤ s.max_memory_mb ∧
  (s.pyramid.map Prod.fst).Nodup ∧
  s.current_memory_mb ≤ s.max_memory_mb + maxLevelMem s.pyramid

theorem calc_image_memory_nonneg (img : PilImage) : 0 ≤ calc_image_memory img := by
  unfold calc_image_memory
  positivity

theorem maxLevelMem_cons (e : ℚ × PilImage) (t : List (ℚ × PilImage)) :
    maxLevelMem (e :: t) = max (calc_image_memory e.2) (maxLevelMem t) := rfl

theorem maxLevelMem_nonneg (l : List (ℚ × PilImage)) : 0 ≤ maxLevelMem l := by
  induction l with
  | nil => exact le_refl 0
  | cons e t ih => exact ih.trans ((le_max_right _ _).trans (maxLevelMem_cons e t).symm.le)

theorem mem_le_maxLevelMem (z : ℚ) (img : PilImage) (l : List (ℚ × PilImage))
    (h : (z, img) ∈ l) : calc_image_memory img ≤ maxLevelMem l := by
  induction l with
  | nil => simp at h
  | cons e t ih =>
    rw [maxLevelMem_cons]
    rcases List.mem_cons.mp h with h1 | h1
    · rw [← h1]
      exact le_max_left _ _
    · exact (ih h1).trans (le_max_right _ _)

theorem maxLevelMem_le_aerase (z : ℚ) (img : PilImage) (l : List (ℚ × PilImage))
    (h : alookup z l = some img) :
    maxLevelMem l ≤ calc_image_memory img + maxLevelMem (aerase z l) := by
  induction l with
  | nil => simp [alookup] at h
  | cons e t ih =>
    rw [maxLevelMem_cons]
    simp only [alookup] at h
    by_cases he : e.1 = z
    · rw [if_pos he] at h
      injection h with h2
      subst h2
      rw [show aerase z (e :: t) = t from by simp [aerase, he]]
      have h1 := maxLevelMem_nonneg t
      have h2 := calc_image_memory_nonneg e.2
      rw [max_le_iff]
      constructor <;> linarith
    · rw [if_neg he] at h
      have ih' := ih h
      rw [show aerase z (e :: t) = e :: aerase z t from by simp [aerase, he],
        maxLevelMem_cons]
      have h2 := calc_image_memory_nonneg img
      rw [max_le_iff]
      constructor
      · have h3 : calc_image_memory e.2 ≤
            max (calc_image_memory e.2) (maxLevelMem (aerase z t)) := le_max_left _ _
        linarith
      · have h3 : maxLevelMem (aerase z t) ≤
            max (calc_image_memory e.2) (maxLevelMem (aerase z t)) := le_max_right _ _
        linarith

theorem cleanupLoop_spec (required : ℚ) (order : List ℚ) (s : PyramidState) :
    (cleanupLoop required s order).max_memory_mb = s.max_memory_mb ∧
    (cleanupLoop required s order).max_levels = s.max_levels ∧
    (cleanupLoop required s order).base_image = s.base_image ∧
    ((cleanupLoop required s order).pyramid.map Prod.fst).Sublist
      (s.pyramid.map Prod.fst) ∧
    (s.current_memory_mb ≤ s.max_memory_mb + maxLevelMem s.pyramid →
      (cleanupLoop required s order).current_memory_mb ≤
        s.max_memory_mb + maxLevelMem (cleanupLoop required s order).pyramid) := by
  induction order generalizing s with
  | nil => exact ⟨rfl, rfl, rfl, List.Sublist.refl _, fun h => h⟩
  | cons z rest ih =>
    unfold cleanupLoop
    split
    · exact ⟨rfl, rfl, rfl, List.Sublist.refl _, fun h => h⟩
    · cases hz : alookup z s.pyramid with
      | none => exact ih s
      | some img =>
        obtain ⟨e1, e2, e3, e4, e5⟩ := ih
          { s with
              pyramid := aerase z s.pyramid,
              current_memory_mb := s.current_memory_mb - calc_image_memory img }
        refine ⟨e1, e2, e3, e4.trans (aerase_keys_sublist z s.pyramid), ?_⟩
        intro hb
        refine e5 ?_
        show s.current_memory_mb - calc_image_memory img ≤
          s.max_memory_mb + maxLevelMem (aerase z s.pyramid)
        have h4 := maxLevelMem_le_aerase z img s.pyramid hz
        linarith

theorem cleanupLoop_lookup_one (required : ℚ) (order : List ℚ) (s : PyramidState)
    (h : (1 : ℚ) ∉ order) :
    alookup 1 (cleanupLoop required s order).pyramid = alookup 1 s.pyramid := by
  induction order generalizing s with
  | nil => rfl
  | cons z rest ih =>
    simp only [List.mem_cons, not_or] at h
    obtain ⟨hz1, hrest⟩ := h
    unfold cleanupLoop
    split
    · rfl
    · cases hz : alookup z s.pyramid with
      | none => exact ih s hrest
      | some img =>
        rw [ih _ hrest]
        show alookup 1 (aerase z s.pyramid) = alookup 1 s.pyramid
        exact alookup_aerase_ne 1 z (fun he => hz1 he.symm) s.pyramid

theorem mem_insertOrd {α : Type} (p : α → α → Bool) (x a : α) (l : List α) :
    a ∈ insertOrd p x l ↔ a = x ∨ a ∈ l := by
  induction l with
  | nil => simp [insertOrd]
  | cons y ys ih =>
    simp only [insertOrd]
    split
    · simp only [List.mem_cons, ih]
      tauto
    · simp only [List.mem_cons]

theorem mem_sortOrd {α : Type} (p : α → α → Bool) (a : α) (l : List α) :
    a ∈ sortOrd p l ↔ a ∈ l := by
  induction l with
  | nil => simp [sortOrd]
  | cons x xs ih =>
    simp only [sortOrd, mem_insertOrd, ih, List.mem_cons]

theorem not_mem_eraseFirst_self (z : ℚ) (l : List ℚ) (h : l.Nodup) :
    z ∉ eraseFirst z l := by
  induction l with
  | nil => simp [eraseFirst]
  | cons x xs ih =>
    rw [List.nodup_cons] at h
    simp only [eraseFirst]
    split
    · rename_i hx
      exact hx ▸ h.1
    · rename_i hx
      intro hmem
      rcases List.mem_cons.mp hmem with h1 | h1
      · exact hx h1.symm
      · exact ih h.2 h1

theorem cleanup_order_not_one (keys : List ℚ) (h : keys.Nodup) :
    (1 : ℚ) ∉ cleanup_order keys := by
  unfold cleanup_order
  intro hmem
  rcases List.mem_append.mp hmem with h1 | h1
  · exact not_mem_eraseFirst_self 1 keys h
      (List.mem_of_mem_filter ((mem_sortOrd _ _ _).mp h1))
  · rw [List.mem_reverse] at h1
    exact not_mem_eraseFirst_self 1 keys h
      (List.mem_of_mem_filter ((mem_sortOrd _ _ _).mp h1))

theorem cleanup_memory_spec (s : PyramidState) (required : ℚ) :
    (cleanup_memory s required).max_memory_mb = s.max_memory_mb ∧
    (cleanup_memory s required).max_levels = s.max_levels ∧
    (cleanup_memory s required).base_image = s.base_image ∧
    ((cleanup_memory s required).pyramid.map Prod.fst).Sublist
      (s.pyramid.map Prod.fst) ∧
    (s.current_memory_mb ≤ s.max_memory_mb + maxLevelMem s.pyramid →
      (cleanup_memory s required).current_memory_mb ≤
        s.max_memory_mb + maxLevelMem (cleanup_memory s required).pyramid) := by
  unfold cleanup_memory
  split
  · exact ⟨rfl, rfl, rfl, List.Sublist.refl _, fun h => h⟩
  · exact cleanupLoop_spec required _ s

/-- Source `_cleanup_memory` never touches the 1.0 level: it is removed from the
candidate list before the eviction order is built. -/
theorem cleanup_memory_lookup_one (s : PyramidState) (required : ℚ)
    (h : (s.pyramid.map Prod.fst).Nodup) :
    alookup 1 (cleanup_memory s required).pyramid = alookup 1 s.pyramid := by
  unfold cleanup_memory
  split
  · rfl
  · exact cleanupLoop_lookup_one required _ s (cleanup_order_not_one _ h)

theorem pyInt_nonneg (x : ℚ) (h : 0 ≤ x) : 0 ≤ pyInt x := by
  unfold pyInt
  rw [if_pos h]
  exact Int.floor_nonneg.mpr h

theorem pyInt_nonpos (x : ℚ) (h : x ≤ 0) : pyInt x ≤ 0 := by
  unfold pyInt
  split
  · rename_i h0
    have hx : x = 0 := le_antisymm h h0
    simp [hx]
  · exact Int.ceil_le.mpr (by exact_mod_cast h)

theorem estMemory_nonneg (base : PilImage) (zoom : ℚ) : 0 ≤ estMemory base zoom := by
  unfold estMemory
  apply div_nonneg _ (by norm_num)
  have hprod : 0 ≤ pyInt ((base.width : ℚ) * zoom) * pyInt ((base.height : ℚ) * zoom) := by
    rcases le_or_lt 0 zoom with hz | hz
    · exact mul_nonneg (pyInt_nonneg _ (mul_nonneg (by positivity) hz))
        (pyInt_nonneg _ (mul_nonneg (by positivity) hz))
    · have ha : pyInt ((base.width : ℚ) * zoom) ≤ 0 :=
        pyInt_nonpos _ (mul_nonpos_iff.mpr (Or.inl ⟨by positivity, hz.le⟩))
      have hb : pyInt ((base.height : ℚ) * zoom) ≤ 0 :=
        pyInt_nonpos _ (mul_nonpos_iff.mpr (Or.inl ⟨by positivity, hz.le⟩))
      have hab := mul_nonneg (neg_nonneg.mpr ha) (neg_nonneg.mpr hb)
      simpa using hab
  have h3 : (0 : ℤ) ≤ pyInt ((base.width : ℚ) * zoom) *
      pyInt ((base.height : ℚ) * zoom) * 3 := by positivity
  exact_mod_cast h3

theorem scaledDim_sq_le (dim : ℕ) (q : ℚ) (hq : 0 ≤ q) :
    ((scaledDim dim q : ℕ) : ℚ) ^ 2 ≤ (dim : ℚ) ^ 2 * q := by
  have hd0 : 0 < q.den := q.den_pos
  have hd0' : (0 : ℚ) < (q.den : ℚ) := by exact_mod_cast hd0
  have hnat : Nat.sqrt (dim ^ 2 * q.num.toNat * q.den) / q.den * q.den ≤
      Nat.sqrt (dim ^ 2 * q.num.toNat * q.den) := Nat.div_mul_le_self _ _
  have hsq : Nat.sqrt (dim ^ 2 * q.num.toNat * q.den) ^ 2 ≤
      dim ^ 2 * q.num.toNat * q.den := Nat.sqrt_le' _
  have h1 : (Nat.sqrt (dim ^ 2 * q.num.toNat * q.den) / q.den * q.den) ^ 2 ≤
      dim ^ 2 * q.num.toNat * q.den := le_trans (Nat.pow_le_pow_left hnat 2) hsq
  have h2 : (((Nat.sqrt (dim ^ 2 * q.num.toNat * q.den) / q.den : ℕ) : ℚ) *
      (q.den : ℚ)) ^ 2 ≤ (dim : ℚ) ^ 2 * (q.num.toNat : ℚ) * (q.den : ℚ) := by
    exact_mod_cast h1
  have hqD : q * (q.den : ℚ) = ((q.num.toNat : ℕ) : ℚ) := by
    have h0 : (0 : ℤ) ≤ q.num := Rat.num_nonneg.mpr hq
    have hcast : ((q.num.toNat : ℕ) : ℚ) = ((q.num : ℤ) : ℚ) := by
      exact_mod_cast Int.toNat_of_nonneg h0
    rw [hcast]
    have hnd := Rat.num_div_den q
    rw [div_eq_iff (by exact_mod_cast hd0.ne' : ((q.den : ℕ) : ℚ) ≠ 0)] at hnd
    linarith
  unfold scaledDim
  have key : ((Nat.sqrt (dim ^ 2 * q.num.toNat * q.den) / q.den : ℕ) : ℚ) ^ 2 *
      (q.den : ℚ) ≤ (dim : ℚ) ^ 2 * ((q.num.toNat : ℕ) : ℚ) := by
    rw [mul_pow] at h2
    refine (mul_le_mul_right hd0').mp ?_
    ring_nf
    ring_nf at h2
    linarith
  have hrw : (dim : ℚ) ^ 2 * ((q.num.toNat : ℕ) : ℚ) =
      ((dim : ℚ) ^ 2 * q) * (q.den : ℚ) := by
    rw [← hqD]
    ring
  rw [hrw] at key
  exact (mul_le_mul_right hd0').mp key

/-- The downscale of `set_base_image` really lands under the budget: the
scaled base image occupies at most `0.8 * max_memory_mb ≤ max_memory_mb`. -/
theorem scaled_base_memory_le (base0 : PilImage) (mm : ℚ) (h0 : 0 ≤ mm)
    (hover : calc_image_memory base0 > mm) :
    calc_image_memory ⟨scaledDim base0.width (mm * (4/5) / calc_image_memory base0),
      scaledDim base0.height (mm * (4/5) / calc_image_memory base0),
      base0.mode⟩ ≤ mm := by
  have hBpos : 0 < calc_image_memory base0 := lt_of_le_of_lt h0 hover
  set q := mm * (4/5) / calc_image_memory base0 with hqdef
  have hq0 : 0 ≤ q := by
    rw [hqdef]
    exact div_nonneg (by linarith) hBpos.le
  have hw := scaledDim_sq_le base0.width q hq0
  have hh := scaledDim_sq_le base0.height q hq0
  have hwh0 : (0 : ℚ) ≤ (base0.width : ℚ) * (base0.height : ℚ) * q :=
    mul_nonneg (mul_nonneg (by positivity) (by positivity)) hq0
  have hsq2 : (((scaledDim base0.width q : ℕ) : ℚ) *
      ((scaledDim base0.height q : ℕ) : ℚ)) ^ 2 ≤
      ((base0.width : ℚ) * (base0.height : ℚ) * q) ^ 2 := by
    calc (((scaledDim base0.width q : ℕ) : ℚ) *
          ((scaledDim base0.height q : ℕ) : ℚ)) ^ 2
        = ((scaledDim base0.width q : ℕ) : ℚ) ^ 2 *
          ((scaledDim base0.height q : ℕ) : ℚ) ^ 2 := by ring
      _ ≤ ((base0.width : ℚ) ^ 2 * q) * ((base0.height : ℚ) ^ 2 * q) := by
          exact mul_le_mul hw hh (by positivity) (mul_nonneg (by positivity) hq0)
      _ = ((base0.width : ℚ) * (base0.height : ℚ) * q) ^ 2 := by ring
  have hprod : ((scaledDim base0.width q : ℕ) : ℚ) *
      ((scaledDim base0.height q : ℕ) : ℚ) ≤
      (base0.width : ℚ) * (base0.height : ℚ) * q :=
    le_of_pow_le_pow_left₀ (by norm_num) hwh0 hsq2
  have hBeq : (base0.width : ℚ) * (base0.height : ℚ) *
      (base0.mode.bytesPerPixel : ℚ) = calc_image_memory base0 * (1024 * 1024) := by
    unfold calc_image_memory
    push_cast
    field_simp
  have hBq : calc_image_memory base0 * q = mm * (4/5) := by
    rw [hqdef, mul_comm]
    exact div_mul_cancel₀ _ hBpos.ne'
  have hbpp : (0 : ℚ) ≤ (base0.mode.bytesPerPixel : ℚ) := by positivity
  show calc_image_memory ⟨scaledDim base0.width q, scaledDim base0.height q,
    base0.mode⟩ ≤ mm
  unfold calc_image_memory
  rw [div_le_iff₀ (by norm_num : (0 : ℚ) < 1024 * 1024)]
  push_cast
  calc ((scaledDim base0.width q : ℕ) : ℚ) * ((scaledDim base0.height q : ℕ) : ℚ) *
        (base0.mode.bytesPerPixel : ℚ)
      ≤ ((base0.width : ℚ) * (base0.height : ℚ) * q) *
        (base0.mode.bytesPerPixel : ℚ) := mul_le_mul_of_nonneg_right hprod hbpp
    _ = ((base0.width : ℚ) * (base0.height : ℚ) * (base0.mode.bytesPerPixel : ℚ)) *
        q := by ring
    _ = (calc_image_memory base0 * (1024 * 1024)) * q := by rw [hBeq]
    _ = (calc_image_memory base0 * q) * (1024 * 1024) := by ring
    _ = mm * (4/5) * (1024 * 1024) := by rw [hBq]
    _ ≤ mm * (1024 * 1024) := by linarith

theorem pyrInv_single (ml : ℕ) (mm : ℚ) (bi : Option PilImage) (img : PilImage)
    (h0 : 0 ≤ mm) (hmem : calc_image_memory img ≤ mm) :
    PyrInv ⟨ml, mm, [(1, img)], bi, calc_image_memory img⟩ := by
  refine ⟨h0, by simp, ?_⟩
  have h1 := maxLevelMem_nonneg [((1 : ℚ), img)]
  show calc_image_memory img ≤ mm + maxLevelMem [(1, img)]
  linarith

theorem set_base_image_inv (s : PyramidState) (arr : NpArray) (hinv : PyrInv s) :
    PyrInv (set_base_image s arr) ∧
    (set_base_image s arr).max_memory_mb = s.max_memory_mb ∧
    (set_base_image s arr).max_levels = s.max_levels := by
  obtain ⟨h0, -, -⟩ := hinv
  unfold set_base_image
  split
  · rename_i hover
    exact ⟨pyrInv_single s.max_levels s.max_memory_mb _ _ h0
      (scaled_base_memory_le (npToPil arr) s.max_memory_mb h0 hover), rfl, rfl⟩
  · rename_i hnover
    exact ⟨pyrInv_single s.max_levels s.max_memory_mb _ _ h0 (not_lt.mp hnover),
      rfl, rfl⟩

theorem afterCleanup_spec (s : PyramidState) (base : PilImage) (zoom : ℚ) :
    (afterCleanup s base zoom).max_memory_mb = s.max_memory_mb ∧
    (afterCleanup s base zoom).max_levels = s.max_levels ∧
    (afterCleanup s base zoom).base_image = s.base_image ∧
    ((afterCleanup s base zoom).pyramid.map Prod.fst).Sublist
      (s.pyramid.map Prod.fst) ∧
    (s.current_memory_mb ≤ s.max_memory_mb + maxLevelMem s.pyramid →
      (afterCleanup s base zoom).current_memory_mb ≤
        s.max_memory_mb + maxLevelMem (afterCleanup s base zoom).pyramid) := by
  unfold afterCleanup
  split
  · exact cleanup_memory_spec s _
  · exact ⟨rfl, rfl, rfl, List.Sublist.refl _, fun h => h⟩

theorem afterCleanup_lookup_one (s : PyramidState) (base : PilImage) (zoom : ℚ)
    (hnd : (s.pyramid.map Prod.fst).Nodup) :
    alookup 1 (afterCleanup s base zoom).pyramid = alookup 1 s.pyramid := by
  unfold afterCleanup
  split
  · exact cleanup_memory_lookup_one s _ hnd
  · rfl

theorem get_image_at_zoom_miss_inv (s : PyramidState) (base : PilImage) (zoom : ℚ)
    (h0 : 0 ≤ s.max_memory_mb) (hnd : (s.pyramid.map Prod.fst).Nodup)
    (hbd : s.current_memory_mb ≤ s.max_memory_mb + maxLevelMem s.pyramid)
    (hz : alookup zoom s.pyramid = none) (hbase : s.base_image = some base) :
    PyrInv (get_image_at_zoom_miss s base zoom).2 ∧
    (get_image_at_zoom_miss s base zoom).2.max_memory_mb = s.max_memory_mb ∧
    (get_image_at_zoom_miss s base zoom).2.max_levels = s.max_levels ∧
    (get_image_at_zoom_miss s base zoom).2.base_image = some base ∧
    ∀ b, alookup 1 s.pyramid = some b →
      alookup 1 (get_image_at_zoom_miss s base zoom).2.pyramid = some b := by
  obtain ⟨m1, m2, m3, m4, m5⟩ := afterCleanup_spec s base zoom
  have hnd1 : ((afterCleanup s base zoom).pyramid.map Prod.fst).Nodup :=
    List.Nodup.sublist m4 hnd
  have hb1 := m5 hbd
  have hlook1 := afterCleanup_lookup_one s base zoom hnd
  have hACinv : PyrInv (afterCleanup s base zoom) := by
    refine ⟨?_, hnd1, ?_⟩
    · rw [m1]; exact h0
    · rw [m1]; exact hb1
  have hACbase : (afterCleanup s base zoom).base_image = some base :=
    m3.trans hbase
  unfold get_image_at_zoom_miss
  by_cases hfits : (afterCleanup s base zoom).current_memory_mb +
      estMemory base zoom > s.max_memory_mb
  · rw [if_pos hfits]
    exact ⟨hACinv, m1, m2, hACbase,
      fun b hb => hlook1.trans hb⟩
  · rw [if_neg hfits]
    split
    · exact ⟨hACinv, m1, m2, hACbase, fun b hb => hlook1.trans hb⟩
    · rename_i img hc
      by_cases hlen : (afterCleanup s base zoom).pyramid.length < s.max_levels
      · rw [if_pos hlen]
        have hzn : zoom ∉ (afterCleanup s base zoom).pyramid.map Prod.fst :=
          fun hm => ((alookup_eq_none_iff zoom s.pyramid).mp hz) (m4.subset hm)
        have hcur : (afterCleanup s base zoom).current_memory_mb +
            estMemory base zoom ≤ s.max_memory_mb := not_lt.mp hfits
        have hest := estMemory_nonneg base zoom
        refine ⟨⟨?_, ?_, ?_⟩, m1, m2, hACbase, ?_⟩
        · show (0 : ℚ) ≤ (afterCleanup s base zoom).max_memory_mb
          rw [m1]; exact h0
        · show (((afterCleanup s base zoom).pyramid ++
            [(zoom, img)]).map Prod.fst).Nodup
          rw [List.map_append]
          rw [List.nodup_append]
          refine ⟨hnd1, by simp, ?_⟩
          intro a ha hb
          simp only [List.map_cons, List.map_nil, List.mem_singleton] at hb
          exact hzn (hb ▸ ha)
        · show (afterCleanup s base zoom).current_memory_mb +
            calc_image_memory img ≤ (afterCleanup s base zoom).max_memory_mb +
              maxLevelMem ((afterCleanup s base zoom).pyramid ++ [(zoom, img)])
          have hmm := mem_le_maxLevelMem zoom img
            ((afterCleanup s base zoom).pyramid ++ [(zoom, img)])
            (List.mem_append_right _ (List.mem_singleton_self _))
          rw [m1]
          linarith
        · intro b hb
          show alookup 1 ((afterCleanup s base zoom).pyramid ++ [(zoom, img)]) =
            some b
          exact alookup_append_left 1 b _ _ (hlook1.trans hb)
      · rw [if_neg hlen]
        exact ⟨hACinv, m1, m2, hACbase, fun b hb => hlook1.trans hb⟩

theorem get_image_at_zoom_inv (s : PyramidState) (zoom : ℚ) (hinv : PyrInv s) :
    PyrInv (get_image_at_zoom s zoom).2 ∧
    (get_image_at_zoom s zoom).2.max_memory_mb = s.max_memory_mb ∧
    (get_image_at_zoom s zoom).2.max_levels = s.max_levels ∧
    (get_image_at_zoom s zoom).2.base_image = s.base_image ∧
    ∀ b, alookup 1 s.pyramid = some b →
      alookup 1 (get_image_at_zoom s zoom).2.pyramid = some b := by
  obtain ⟨h0, hnd, hbd⟩ := hinv
  unfold get_image_at_zoom
  cases hbase : s.base_image with
  | none => exact ⟨⟨h0, hnd, hbd⟩, rfl, rfl, hbase, fun b hb => hb⟩
  | some base =>
    cases hz : alookup zoom s.pyramid with
    | some img => exact ⟨⟨h0, hnd, hbd⟩, rfl, rfl, hbase, fun b hb => hb⟩
    | none => exact get_image_at_zoom_miss_inv s base zoom h0 hnd hbd hz hbase

theorem runPyr_inv (ops : List PyrOp) (s : PyramidState) (hinv : PyrInv s) :
    PyrInv (runPyr s ops) := by
  induction ops generalizing s with
  | nil => exact hinv
  | cons op rest ih =>
    refine ih _ ?_
    cases op with
    | setBase arr => exact (set_base_image_inv s arr hinv).1
    | getZoom z => exact (get_image_at_zoom_inv s z hinv).1

/-- Claim C1: along any sequence of `set_base_image` / `get_image_at_zoom`
calls from a fresh pyramid with a non-negative budget, the accounted memory
stays within the budget plus at most one cached level's worth of slack
(`maxLevelMem`, the memory of the largest admitted allocation); memory
cleanup never removes the 1.0 level; and a cached 1.0 level survives any
further `get_image_at_zoom` call. -/
theorem pyramid_memory_invariant (max_levels : ℕ) (max_memory_mb : ℚ)
    (ops : List PyrOp) (zoom required : ℚ) (hm : 0 ≤ max_memory_mb) :
    (runPyr (initPyramid max_levels max_memory_mb) ops).current_memory_mb ≤
      (runPyr (initPyramid max_levels max_memory_mb) ops).max_memory_mb +
        maxLevelMem (runPyr (initPyramid max_levels max_memory_mb) ops).pyramid ∧
    alookup 1 (cleanup_memory (runPyr (initPyramid max_levels max_memory_mb) ops)
        required).pyramid =
      alookup 1 (runPyr (initPyramid max_levels max_memory_mb) ops).pyramid ∧
    ∀ b, alookup 1 (runPyr (initPyramid max_levels max_memory_mb) ops).pyramid =
        some b →
      alookup 1 (get_image_at_zoom (runPyr (initPyramid max_levels max_memory_mb) ops)
          zoom).2.pyramid = some b := by
  have hinv : PyrInv (runPyr (initPyramid max_levels max_memory_mb) ops) := by
    apply runPyr_inv
    refine ⟨hm, by simp [initPyramid], ?_⟩
    show (0 : ℚ) ≤ max_memory_mb + maxLevelMem []
    simpa [maxLevelMem] using hm
  obtain ⟨h0, hnd, hbd⟩ := hinv
  exact ⟨hbd, cleanup_memory_lookup_one _ required hnd,
    (get_image_at_zoom_inv _ zoom ⟨h0, hnd, hbd⟩).2.2.2.2⟩

theorem pyramid_memory_invariant_witness :
    (runPyr (initPyramid 2 2) [PyrOp.setBase (NpArray.gray 1024 1024),
        PyrOp.getZoom (1/2)]).current_memory_mb ≤
      (runPyr (initPyramid 2 2) [PyrOp.setBase (NpArray.gray 1024 1024),
          PyrOp.getZoom (1/2)]).max_memory_mb +
        maxLevelMem (runPyr (initPyramid 2 2) [PyrOp.setBase (NpArray.gray 1024 1024),
          PyrOp.getZoom (1/2)]).pyramid ∧
    alookup 1 (cleanup_memory (runPyr (initPyramid 2 2)
        [PyrOp.setBase (NpArray.gray 1024 1024), PyrOp.getZoom (1/2)]) 12).pyramid =
      alookup 1 (runPyr (initPyramid 2 2) [PyrOp.setBase (NpArray.gray 1024 1024),
        PyrOp.getZoom (1/2)]).pyramid ∧
    ∀ b, alookup 1 (runPyr (initPyramid 2 2) [PyrOp.setBase (NpArray.gray 1024 1024),
        PyrOp.getZoom (1/2)]).pyramid = some b →
      alookup 1 (get_image_at_zoom (runPyr (initPyramid 2 2)
          [PyrOp.setBase (NpArray.gray 1024 1024), PyrOp.getZoom (1/2)]) 2).2.pyramid =
        some b :=
  pyramid_memory_invariant 2 2 [PyrOp.setBase (NpArray.gray 1024 1024),
    PyrOp.getZoom (1/2)] 2 12 (by norm_num)

/-- The demonstration run behind the C10 counterexample and witnesses:
a fresh pyramid (max_levels = 2, 2 MB budget) after `set_base_image` of a
1024×1024 grayscale array and `get_image_at_zoom 0.5`. -/
theorem demo_set_base :
    set_base_image (initPyramid 2 2) (NpArray.gray 1024 1024) =
      ⟨2, 2, [(1, ⟨1024, 1024, PilMode.L⟩)], some ⟨1024, 1024, PilMode.L⟩, 1⟩ := by
  have hcond : ¬ (calc_image_memory (npToPil (NpArray.gray 1024 1024)) >
      (initPyramid 2 2).max_memory_mb) := by
    norm_num [npToPil, calc_image_memory, PilMode.bytesPerPixel, initPyramid]
  unfold set_base_image
  rw [if_neg hcond]
  norm_num [npToPil, calc_image_memory, PilMode.bytesPerPixel, initPyramid]

theorem demo_get_half :
    get_image_at_zoom
      ⟨2, 2, [(1, ⟨1024, 1024, PilMode.L⟩)], some ⟨1024, 1024, PilMode.L⟩, 1⟩ (1/2) =
      (some ⟨512, 512, PilMode.L⟩,
       ⟨2, 2, [(1, ⟨1024, 1024, PilMode.L⟩), (1/2, ⟨512, 512, PilMode.L⟩)],
        some ⟨1024, 1024, PilMode.L⟩, 5/4⟩) := by
  norm_num [get_image_at_zoom, alookup, get_image_at_zoom_miss, afterCleanup,
    estMemory, pyInt, create_scaled_image, calc_image_memory, PilMode.bytesPerPixel,
    show Int.toNat 512 = 512 from rfl]

theorem demo_state :
    runPyr (initPyramid 2 2) [PyrOp.setBase (NpArray.gray 1024 1024),
        PyrOp.getZoom (1/2)] =
      ⟨2, 2, [(1, ⟨1024, 1024, PilMode.L⟩), (1/2, ⟨512, 512, PilMode.L⟩)],
        some ⟨1024, 1024, PilMode.L⟩, 5/4⟩ := by
  show (get_image_at_zoom
    (set_base_image (initPyramid 2 2) (NpArray.gray 1024 1024)) (1/2)).2 = _
  rw [demo_set_base, demo_get_half]

theorem demo_get_two :
    (get_image_at_zoom
      ⟨2, 2, [(1, ⟨1024, 1024, PilMode.L⟩), (1/2, ⟨512, 512, PilMode.L⟩)],
        some ⟨1024, 1024, PilMode.L⟩, 5/4⟩ 2).2 =
      ⟨2, 2, [(1, ⟨1024, 1024, PilMode.L⟩)], some ⟨1024, 1024, PilMode.L⟩, 1⟩ := by
  norm_num [get_image_at_zoom, alookup, get_image_at_zoom_miss, afterCleanup,
    estMemory, pyInt, create_scaled_image, cleanup_memory, cleanup_order,
    cleanupLoop, eraseFirst, commonZoomLevels, sortOrd, insertOrd, importanceIndex,
    aerase, calc_image_memory, PilMode.bytesPerPixel, List.cons_ne_nil]

/-- Claim C10, counterexample: with max_levels = 2 and a 2 MB budget, after
caching the base (1 MB) and the 0.5× level (0.25 MB) the pyramid holds
max_levels entries; a `get_image_at_zoom 2.0` request (estimate 12 MB)
triggers cleanup, which evicts the 0.5 level — so the call does change the
memory accounting even though the pyramid was at its level cap. -/
theorem pyramid_max_levels_cex :
    (runPyr (initPyramid 2 2) [PyrOp.setBase (NpArray.gray 1024 1024),
        PyrOp.getZoom (1/2)]).pyramid.length = 2 ∧
    (runPyr (initPyramid 2 2) [PyrOp.setBase (NpArray.gray 1024 1024),
        PyrOp.getZoom (1/2)]).max_levels = 2 ∧
    alookup 2 (runPyr (initPyramid 2 2) [PyrOp.setBase (NpArray.gray 1024 1024),
        PyrOp.getZoom (1/2)]).pyramid = none ∧
    (get_image_at_zoom (runPyr (initPyramid 2 2)
          [PyrOp.setBase (NpArray.gray 1024 1024), PyrOp.getZoom (1/2)]) 2).2.current_memory_mb
      ≠ (runPyr (initPyramid 2 2) [PyrOp.setBase (NpArray.gray 1024 1024),
        PyrOp.getZoom (1/2)]).current_memory_mb := by
  refine ⟨by rw [demo_state]; rfl, by rw [demo_state], ?_, ?_⟩
  · rw [demo_state]
    norm_num [alookup]
  · rw [demo_state, demo_get_two]
    norm_num

/-- Claim C10, amended: when the pyramid already holds max_levels entries
and the pending allocation fits the memory budget (so no cleanup runs),
`get_image_at_zoom` for an uncached zoom computes and returns the scaled
image without caching it and without changing the state at all; when the
allocation does not fit, cleanup may evict levels first (see the
counterexample). -/
theorem pyramid_max_levels_no_cache (s : PyramidState) (base : PilImage) (zoom : ℚ)
    (hbase : s.base_image = some base)
    (hmiss : alookup zoom s.pyramid = none)
    (hfull : s.max_levels ≤ s.pyramid.length)
    (hfits : ¬ s.current_memory_mb + estMemory base zoom > s.max_memory_mb) :
    get_image_at_zoom s zoom =
      (create_scaled_image base (pyInt ((base.width : ℚ) * zoom))
        (pyInt ((base.height : ℚ) * zoom)), s) := by
  have hac : afterCleanup s base zoom = s := by
    unfold afterCleanup
    rw [if_neg hfits]
  unfold get_image_at_zoom
  rw [hbase, hmiss]
  show get_image_at_zoom_miss s base zoom = _
  unfold get_image_at_zoom_miss
  rw [hac, if_neg hfits]
  split
  · rename_i hc
    rw [hc]
  · rename_i img hc
    rw [if_neg (not_lt.mpr hfull), hc]

theorem pyramid_max_levels_no_cache_witness :
    get_image_at_zoom (runPyr (initPyramid 2 2)
        [PyrOp.setBase (NpArray.gray 1024 1024), PyrOp.getZoom (1/2)]) (1/4) =
      (create_scaled_image ⟨1024, 1024, PilMode.L⟩
        (pyInt (((1024 : ℕ) : ℚ) * (1/4))) (pyInt (((1024 : ℕ) : ℚ) * (1/4))),
       runPyr (initPyramid 2 2)
        [PyrOp.setBase (NpArray.gray 1024 1024), PyrOp.getZoom (1/2)]) :=
  pyramid_max_levels_no_cache
    (runPyr (initPyramid 2 2) [PyrOp.setBase (NpArray.gray 1024 1024),
      PyrOp.getZoom (1/2)])
    ⟨1024, 1024, PilMode.L⟩ (1/4)
    (by rw [demo_state])
    (by rw [demo_state]; norm_num [alookup])
    (by rw [demo_state]; norm_num)
    (by rw [demo_state]; norm_num [estMemory, pyInt])

end Zuobiao
